import Mathlib

/-!
Verification of the Decision module (route-decision core) of the openr
link-state routing daemon, shallowly embedded from `src/unnamed/part_000`
(Decision.cpp).  Maps (`std::unordered_map`) are embedded as `AList`
(association lists with no duplicate keys); sets (`std::unordered_set`)
as `Finset`; fallible code returns `Option`.
-/

namespace Openr

/-- thrift::MplsActionCode. -/
inductive MplsActionCode where
  | PUSH
  | SWAP
  | PHP
  | POP_AND_LOOKUP
deriving DecidableEq, Repr

/-- thrift::MplsAction. -/
structure MplsAction where
  action : MplsActionCode
  swapLabel : Option Int := none
  pushLabels : Option (List Int) := none
deriving DecidableEq, Repr

/-- thrift::IpPrefix: binary address bytes (modelled as a String) plus mask
length.  A prefix is V4 iff its binary address is 4 bytes long. -/
structure IpPrefix where
  addr : String
  prefixLength : Nat
deriving DecidableEq, Repr

/-- thrift::NextHopThrift, restricted to the fields Decision.cpp writes
(via `createNextHop(address, iface, metric, mplsAction, useNonShortestRoute,
area)`). -/
structure NextHop where
  address : String
  iface : Option String := none
  metric : Nat := 0
  mplsAction : Option MplsAction := none
  useNonShortestRoute : Bool := false
  area : Option String := none
deriving DecidableEq, Repr

/-- thrift::PrefixType (values used by Decision.cpp). -/
inductive PrefixType where
  | LOOPBACK
  | BGP
  | DEFAULT
deriving DecidableEq, Repr

/-- thrift::PrefixForwardingType. -/
inductive PrefixForwardingType where
  | IP
  | SR_MPLS
deriving DecidableEq, Repr

/-- thrift::PrefixForwardingAlgorithm. -/
inductive PrefixForwardingAlgorithm where
  | SP_ECMP
  | KSP2_ED_ECMP
deriving DecidableEq, Repr

/-- thrift::PrefixEntry, restricted to the fields Decision.cpp reads. -/
structure PrefixEntry where
  pfx : IpPrefix
  type : PrefixType := .DEFAULT
  forwardingType : PrefixForwardingType := .IP
  forwardingAlgorithm : PrefixForwardingAlgorithm := .SP_ECMP
  prependLabel : Option Int := none
  minNexthop : Option Int := none
deriving DecidableEq, Repr

/-- RibUnicastEntry: next-hops are an unordered set, so `operator==`
compares them as sets (`Finset`). -/
structure RibUnicastEntry where
  pfx : IpPrefix
  nexthops : Finset NextHop := ∅
  bestPrefixEntry : Option PrefixEntry := none
  doNotInstall : Bool := false
  bestNexthop : Option NextHop := none
deriving DecidableEq

/-- RibMplsEntry: a top label and an unordered set of next-hops. -/
structure RibMplsEntry where
  label : Int
  nexthops : Finset NextHop := ∅
deriving DecidableEq

/-- DecisionRouteDb: `unicastEntries` keyed by prefix, `mplsEntries` keyed
by label, both `std::unordered_map`s embedded as `AList`s. -/
structure DecisionRouteDb where
  unicastEntries : AList (fun _ : IpPrefix => RibUnicastEntry) := ∅
  mplsEntries : AList (fun _ : Int => RibMplsEntry) := ∅

/-- thrift::RouteDatabaseDelta as produced by `getRouteDelta`.  The
`toTUnicastRoute` / `toTMplsRoute` serialization is dropped: the delta
carries the Rib entries themselves, keyed. -/
structure RouteDatabaseDelta where
  unicastRoutesToUpdate : List (IpPrefix × RibUnicastEntry) := []
  unicastRoutesToDelete : List IpPrefix := []
  mplsRoutesToUpdate : List (Int × RibMplsEntry) := []
  mplsRoutesToDelete : List Int := []

section MapDiff

variable {K V : Type} [DecidableEq K] [DecidableEq V]

/-- One diff direction of `getRouteDelta` (Decision.cpp:613): an entry of
`newM` is an update exactly when its key is absent in `oldM` or the old
value is structurally unequal. -/
def diffUpdates (newM oldM : AList (fun _ : K => V)) : List (K × V) :=
  (newM.entries.filter (fun e => !(oldM.lookup e.1 == some e.2))).map
    (fun e => (e.1, e.2))

/-- The delete direction of `getRouteDelta`: a key of `oldM` is a delete
exactly when it is absent in `newM` (`newDb.count(key) == 0`). -/
def diffDeletes (newM oldM : AList (fun _ : K => V)) : List K :=
  oldM.keys.filter (fun k => !(newM.lookup k).isSome)

/-- Applying a delta to a map: erase every deleted key, then upsert every
updated entry (the FIB-side application the spec's round-trip refers to). -/
def applyDeltaMap (m : AList (fun _ : K => V)) (upds : List (K × V))
    (dels : List K) : AList (fun _ : K => V) :=
  upds.foldl (fun acc e => acc.insert e.1 e.2)
    (dels.foldl (fun acc k => acc.erase k) m)

theorem lookup_foldl_erase_not_mem (l : List K) (m : AList (fun _ : K => V))
    (k : K) (hk : k ∉ l) :
    (l.foldl (fun acc k => acc.erase k) m).lookup k = m.lookup k := by
  induction l generalizing m with
  | nil => rfl
  | cons a t ih =>
    simp only [List.foldl_cons]
    have hne : k ≠ a := fun h => hk (h ▸ List.mem_cons_self a t)
    rw [ih _ (fun h => hk (List.mem_cons_of_mem a h)),
      AList.lookup_erase_ne hne]

theorem lookup_foldl_erase_mem (l : List K) (m : AList (fun _ : K => V))
    (k : K) (hk : k ∈ l) :
    (l.foldl (fun acc k => acc.erase k) m).lookup k = none := by
  induction l generalizing m with
  | nil => cases hk
  | cons a t ih =>
    simp only [List.foldl_cons]
    rcases List.mem_cons.1 hk with rfl | ht
    · by_cases hmem : k ∈ t
      · exact ih _ hmem
      · rw [lookup_foldl_erase_not_mem t _ k hmem]
        exact AList.lookup_erase k m
    · exact ih _ ht

theorem lookup_foldl_insert_not_mem (l : List (K × V))
    (m : AList (fun _ : K => V)) (k : K) (hk : ∀ e ∈ l, e.1 ≠ k) :
    (l.foldl (fun acc e => acc.insert e.1 e.2) m).lookup k = m.lookup k := by
  induction l generalizing m with
  | nil => rfl
  | cons a t ih =>
    simp only [List.foldl_cons]
    rw [ih _ (fun e he => hk e (List.mem_cons_of_mem a he)),
      AList.lookup_insert_ne (fun h => hk a (List.mem_cons_self a t) h.symm)]

theorem lookup_foldl_insert_mem (l : List (K × V))
    (m : AList (fun _ : K => V)) (k : K) (v : V)
    (hnd : (l.map Prod.fst).Nodup) (hkv : (k, v) ∈ l) :
    (l.foldl (fun acc e => acc.insert e.1 e.2) m).lookup k = some v := by
  induction l generalizing m with
  | nil => cases hkv
  | cons a t ih =>
    simp only [List.foldl_cons]
    rcases List.mem_cons.1 hkv with rfl | ht
    · have hrest : ∀ e ∈ t, e.1 ≠ (k, v).1 := by
        intro e he h
        have := (List.nodup_cons.1 hnd).1
        exact this (h ▸ List.mem_map_of_mem Prod.fst he)
      rw [lookup_foldl_insert_not_mem t _ k hrest]
      exact AList.lookup_insert m
    · exact ih _ (List.nodup_cons.1 hnd).2 ht

end MapDiff

/-- getRouteDelta (Decision.cpp:613-651): diff two route DBs into an
update/delete delta, for the unicast and MPLS maps independently. -/
def getRouteDelta (newDb oldDb : DecisionRouteDb) : RouteDatabaseDelta :=
  { unicastRoutesToUpdate :=
      diffUpdates newDb.unicastEntries oldDb.unicastEntries
    unicastRoutesToDelete :=
      diffDeletes newDb.unicastEntries oldDb.unicastEntries
    mplsRoutesToUpdate := diffUpdates newDb.mplsEntries oldDb.mplsEntries
    mplsRoutesToDelete := diffDeletes newDb.mplsEntries oldDb.mplsEntries }

/-- Applying a whole `RouteDatabaseDelta` to a route DB. -/
def applyRouteDelta (db : DecisionRouteDb) (delta : RouteDatabaseDelta) :
    DecisionRouteDb :=
  { unicastEntries := applyDeltaMap db.unicastEntries
      delta.unicastRoutesToUpdate delta.unicastRoutesToDelete
    mplsEntries := applyDeltaMap db.mplsEntries
      delta.mplsRoutesToUpdate delta.mplsRoutesToDelete }

section RoundTrip

variable {K V : Type} [DecidableEq K] [DecidableEq V]

theorem diffUpdates_keys_nodup (newM oldM : AList (fun _ : K => V)) :
    ((diffUpdates newM oldM).map Prod.fst).Nodup := by
  have h1 : (diffUpdates newM oldM).map Prod.fst =
      (newM.entries.filter
        (fun e => !(oldM.lookup e.1 == some e.2))).map Sigma.fst := by
    simp [diffUpdates, List.map_map]
  rw [h1]
  exact (newM.keys_nodup).sublist
    (List.Sublist.map _ (List.filter_sublist _))

theorem applyDeltaMap_diff_lookup (newM oldM : AList (fun _ : K => V))
    (k : K) :
    (applyDeltaMap oldM (diffUpdates newM oldM)
      (diffDeletes newM oldM)).lookup k = newM.lookup k := by
  unfold applyDeltaMap
  rcases hnew : newM.lookup k with _ | v
  · -- k absent in newM: not updated; deleted iff present in oldM
    have hupd : ∀ e ∈ diffUpdates newM oldM, e.1 ≠ k := by
      intro e he h
      rcases List.mem_map.1 he with ⟨se, hse, hpe⟩
      have hfst : se.1 = k := by rw [← hpe] at h; exact h
      have hk : Sigma.mk k se.2 ∈ newM.entries := by
        have hm := List.mem_of_mem_filter hse
        cases se; cases hfst; exact hm
      have hlk : newM.lookup k = some se.2 := AList.mem_lookup_iff.2 hk
      rw [hnew] at hlk
      exact Option.noConfusion hlk
    rw [lookup_foldl_insert_not_mem _ _ _ hupd]
    by_cases hold : k ∈ oldM
    · apply lookup_foldl_erase_mem
      apply List.mem_filter.2
      refine ⟨AList.mem_keys.2 hold, ?_⟩
      simp [hnew]
    · rw [lookup_foldl_erase_not_mem]
      · exact AList.lookup_eq_none.2 hold
      · intro hmem
        exact hold (AList.mem_keys.1
          (List.mem_of_mem_filter (a := k) hmem))
  · -- k present in newM with value v: not deleted
    have hdel : k ∉ diffDeletes newM oldM := by
      intro hmem
      have hcond := List.of_mem_filter (a := k) hmem
      rw [hnew] at hcond
      simp at hcond
    by_cases he : oldM.lookup k = some v
    · -- structurally equal: not updated, old value survives
      have hupd : ∀ e ∈ diffUpdates newM oldM, e.1 ≠ k := by
        intro e hmem h
        rcases List.mem_map.1 hmem with ⟨se, hse, hpe⟩
        have hfst : se.1 = k := by rw [← hpe] at h; exact h
        have hcond := List.of_mem_filter hse
        have hin : Sigma.mk k se.2 ∈ newM.entries := by
          have hm := List.mem_of_mem_filter hse
          cases se; cases hfst; exact hm
        have hlook : newM.lookup k = some se.2 :=
          AList.mem_lookup_iff.2 hin
        have hv : se.2 = v := by
          rw [hnew] at hlook; exact (Option.some.inj hlook).symm
        have hfk : se.1 = k := hfst
        rw [hfk, hv, he] at hcond
        simp at hcond
      rw [lookup_foldl_insert_not_mem _ _ _ hupd,
        lookup_foldl_erase_not_mem _ _ _ hdel]
      exact he
    · -- changed: updated, insert wins
      have hkv : (k, v) ∈ diffUpdates newM oldM := by
        apply List.mem_map.2
        refine ⟨⟨k, v⟩, ?_, rfl⟩
        apply List.mem_filter.2
        refine ⟨AList.mem_lookup_iff.1 hnew, ?_⟩
        simp [he]
      exact lookup_foldl_insert_mem _ _ _ _
        (diffUpdates_keys_nodup newM oldM) hkv

theorem mem_diffUpdates (newM oldM : AList (fun _ : K => V)) (k : K)
    (v : V) :
    (k, v) ∈ diffUpdates newM oldM ↔
      newM.lookup k = some v ∧ ¬ oldM.lookup k = some v := by
  constructor
  · intro hmem
    rcases List.mem_map.1 hmem with ⟨se, hse, hpe⟩
    have hfst : se.1 = k := congrArg Prod.fst hpe
    have hsnd : se.2 = v := congrArg Prod.snd hpe
    have hin : Sigma.mk k v ∈ newM.entries := by
      have hm := List.mem_of_mem_filter hse
      cases se
      cases hfst
      cases hsnd
      exact hm
    have hcond := List.of_mem_filter hse
    cases se
    cases hfst
    cases hsnd
    refine ⟨AList.mem_lookup_iff.2 hin, ?_⟩
    intro habs
    rw [habs] at hcond
    simp at hcond
  · rintro ⟨hl, hne⟩
    apply List.mem_map.2
    refine ⟨⟨k, v⟩, ?_, rfl⟩
    apply List.mem_filter.2
    exact ⟨AList.mem_lookup_iff.1 hl, by simp [hne]⟩

theorem mem_diffDeletes (newM oldM : AList (fun _ : K => V)) (k : K) :
    k ∈ diffDeletes newM oldM ↔ k ∈ oldM ∧ k ∉ newM := by
  constructor
  · intro hmem
    have hin := List.mem_of_mem_filter (a := k) hmem
    have hcond := List.of_mem_filter (a := k) hmem
    refine ⟨AList.mem_keys.2 hin, ?_⟩
    intro habs
    rw [(AList.lookup_isSome).2 habs] at hcond
    simp at hcond
  · rintro ⟨hold, hnew⟩
    apply List.mem_filter.2
    refine ⟨AList.mem_keys.1 hold, ?_⟩
    simp [AList.lookup_eq_none.2 hnew]

end RoundTrip

/-- C1.  **Delta round-trip and diff rule** (Decision.cpp:613-651).
Applying the delta computed by `getRouteDelta(new, old)` to `old`
reproduces `new` on both the unicast and the MPLS map (stated as equality
of lookups at every key); an entry is marked "update" exactly when it is
absent in `old` or structurally unequal to `old`'s entry (entry equality
includes next-hop sets compared as `Finset`s), and a prefix/label is
marked "delete" exactly when it is present in `old` but absent in
`new`. -/
theorem getRouteDelta_roundTrip (newDb oldDb : DecisionRouteDb) :
    (∀ p, (applyRouteDelta oldDb
        (getRouteDelta newDb oldDb)).unicastEntries.lookup p =
        newDb.unicastEntries.lookup p) ∧
    (∀ l, (applyRouteDelta oldDb
        (getRouteDelta newDb oldDb)).mplsEntries.lookup l =
        newDb.mplsEntries.lookup l) ∧
    (∀ p e, (p, e) ∈ (getRouteDelta newDb oldDb).unicastRoutesToUpdate ↔
        newDb.unicastEntries.lookup p = some e ∧
          ¬ oldDb.unicastEntries.lookup p = some e) ∧
    (∀ p, p ∈ (getRouteDelta newDb oldDb).unicastRoutesToDelete ↔
        p ∈ oldDb.unicastEntries ∧ p ∉ newDb.unicastEntries) ∧
    (∀ l e, (l, e) ∈ (getRouteDelta newDb oldDb).mplsRoutesToUpdate ↔
        newDb.mplsEntries.lookup l = some e ∧
          ¬ oldDb.mplsEntries.lookup l = some e) ∧
    (∀ l, l ∈ (getRouteDelta newDb oldDb).mplsRoutesToDelete ↔
        l ∈ oldDb.mplsEntries ∧ l ∉ newDb.mplsEntries) :=
  ⟨fun p => applyDeltaMap_diff_lookup newDb.unicastEntries
      oldDb.unicastEntries p,
   fun l => applyDeltaMap_diff_lookup newDb.mplsEntries
      oldDb.mplsEntries l,
   fun p e => mem_diffUpdates newDb.unicastEntries oldDb.unicastEntries p e,
   fun p => mem_diffDeletes newDb.unicastEntries oldDb.unicastEntries p,
   fun l e => mem_diffUpdates newDb.mplsEntries oldDb.mplsEntries l e,
   fun l => mem_diffDeletes newDb.mplsEntries oldDb.mplsEntries l⟩

/-! ## MPLS node-label assembly (C2) -/

/-- Lexicographic comparison of character lists (the order of
`std::string::operator<`). -/
def charListLt : List Char → List Char → Bool
  | [], [] => false
  | [], _ :: _ => true
  | _ :: _, [] => false
  | a :: as, b :: bs =>
    if a < b then true else if b < a then false else charListLt as bs

/-- `std::string::operator<`: lexicographic order on the characters. -/
def stringLt (a b : String) : Bool := charListLt a.data b.data

/-- Modelled from the spec: `isMplsLabelValid` (from openr/common/Util, not
part of the excerpt); the spec constrains node and adjacency labels to the
range `[0 .. 2^20)`. -/
def isMplsLabelValid (l : Int) : Bool :=
  decide (0 ≤ l) && decide (l < 1048576)

/-- thrift::AdjacencyDatabase restricted to the two fields the node-label
loop of `buildRouteDb` reads (`thisNodeName`, `nodeLabel`). -/
structure AdjacencyDatabase where
  thisNodeName : String
  nodeLabel : Int := 0
deriving DecidableEq, Repr

/-- The single POP_AND_LOOKUP next-hop installed for the local node's own
node label (Decision.cpp:999-1008): zero address `::`. -/
def popAndLookupNextHop : NextHop :=
  { address := "::", mplsAction := some { action := .POP_AND_LOOKUP } }

/-- The install part of one node-label iteration (Decision.cpp:998-1041):
either the POP_AND_LOOKUP entry for the local node, or an entry built from
the next-hops towards the owner.  `computeNodeRouteNhs` abstracts
`getNextHopsWithMetric` + `getNextHopsThrift` towards the owner node
(lines 1012-1041); it returns `none` when `metricNhs.second` is empty (the
`no_route_to_label` skip) and the computed next-hop set otherwise.  The
source's `erase` + `emplace` pair is `AList.insert` (overwrite). -/
def mplsNodeLabelInstall (myNodeName : String)
    (computeNodeRouteNhs : String → Option (Finset NextHop))
    (labelToNode : AList (fun _ : Int => String × RibMplsEntry))
    (dupCount : Nat) (adjDb : AdjacencyDatabase) (topLabel : Int) :
    AList (fun _ : Int => String × RibMplsEntry) × Nat :=
  if adjDb.thisNodeName = myNodeName then
    (labelToNode.insert topLabel
      (adjDb.thisNodeName,
        { label := topLabel, nexthops := {popAndLookupNextHop} }),
      dupCount)
  else
    match computeNodeRouteNhs adjDb.thisNodeName with
    | none => (labelToNode, dupCount)
    | some nhs =>
      (labelToNode.insert topLabel
        (adjDb.thisNodeName, { label := topLabel, nexthops := nhs }),
        dupCount)

/-- One iteration of the node-label loop of `buildRouteDb`
(Decision.cpp:966-1042) over one adjacency database.  The accumulator is
the `labelToNode` map (label to (owner node, entry)) and the running value
of the `decision.duplicate_node_label` counter.  The duplicate branch is
the literal source: `if (iter->second.first < adjDb.thisNodeName)
continue;` -- i.e. the existing entry is kept whenever its owner's name is
lexicographically SMALLER than the incoming node's name. -/
def mplsNodeLabelStep (myNodeName : String)
    (computeNodeRouteNhs : String → Option (Finset NextHop))
    (acc : AList (fun _ : Int => String × RibMplsEntry) × Nat)
    (adjDb : AdjacencyDatabase) :
    AList (fun _ : Int => String × RibMplsEntry) × Nat :=
  let topLabel := adjDb.nodeLabel
  if topLabel = 0 then acc
  else if !(isMplsLabelValid topLabel) then acc
  else
    match acc.1.lookup topLabel with
    | some prev =>
      if stringLt prev.1 adjDb.thisNodeName then (acc.1, acc.2 + 1)
      else
        mplsNodeLabelInstall myNodeName computeNodeRouteNhs acc.1
          (acc.2 + 1) adjDb topLabel
    | none =>
      mplsNodeLabelInstall myNodeName computeNodeRouteNhs acc.1 acc.2
        adjDb topLabel

/-- The node-label section of `buildRouteDb` (Decision.cpp:966-1046):
fold the step over the adjacency databases in iteration order, starting
from the empty map and a zero `decision.duplicate_node_label` counter. -/
def buildMplsNodeLabelRoutes (myNodeName : String)
    (computeNodeRouteNhs : String → Option (Finset NextHop))
    (adjDbs : List AdjacencyDatabase) :
    AList (fun _ : Int => String × RibMplsEntry) × Nat :=
  adjDbs.foldl (mplsNodeLabelStep myNodeName computeNodeRouteNhs) (∅, 0)

/-- Concrete duplicate-label scenario: two nodes advertise node label 100. -/
def adjNodeA : AdjacencyDatabase := { thisNodeName := "nodeA", nodeLabel := 100 }

def adjNodeB : AdjacencyDatabase := { thisNodeName := "nodeB", nodeLabel := 100 }

def someNodeRouteNhs : String → Option (Finset NextHop) :=
  fun _ => some {{ address := "fe80::1", metric := 10 }}

/-- C2.  **Duplicate node-label tie-break is inverted in the code.**  The
comment above the loop (Decision.cpp:983-986) and the spec both say the
node with the lexicographically BIGGER node-ID wins, but the code's
`if (iter->second.first < adjDb.thisNodeName) continue;` keeps the entry
of the SMALLER node-ID: with `nodeA` and `nodeB` both advertising valid
node label 100, under either iteration order the retained owner is
`nodeA` (the smaller ID), while `decision.duplicate_node_label` is
incremented once as documented. -/
theorem buildMplsNodeLabelRoutes_retains_smaller_nodeId :
    (((buildMplsNodeLabelRoutes "me" someNodeRouteNhs
        [adjNodeA, adjNodeB]).1.lookup 100).map Prod.fst = some "nodeA" ∧
      (buildMplsNodeLabelRoutes "me" someNodeRouteNhs
        [adjNodeA, adjNodeB]).2 = 1) ∧
    (((buildMplsNodeLabelRoutes "me" someNodeRouteNhs
        [adjNodeB, adjNodeA]).1.lookup 100).map Prod.fst = some "nodeA" ∧
      (buildMplsNodeLabelRoutes "me" someNodeRouteNhs
        [adjNodeB, adjNodeA]).2 = 1) := by
  refine ⟨⟨?_, ?_⟩, ⟨?_, ?_⟩⟩ <;> decide

/-! ## Decision::buildRouteDb per-node merge and coldStartUpdate (C6, C10) -/

/-- Insert semantics of `std::unordered_map::insert(first, last)`: keys
already present are kept (no overwrite), used by the per-area merge in
`Decision::buildRouteDb` (Decision.cpp:2367-2370). -/
def mergeKeepExisting {K V : Type} [DecidableEq K]
    (m add : AList (fun _ : K => V)) : AList (fun _ : K => V) :=
  add.entries.foldl
    (fun acc e => if e.1 ∈ acc then acc else acc.insert e.1 e.2) m

/-- The per-area merge loop of `Decision::buildRouteDb`
(Decision.cpp:2362-2375): areas whose solver returned `std::nullopt` are
skipped (only a warning is logged). -/
def mergeAreaResults (areaResults : List (Option DecisionRouteDb)) :
    DecisionRouteDb :=
  areaResults.foldl
    (fun db r =>
      match r with
      | some areaDb =>
        { unicastEntries :=
            mergeKeepExisting db.unicastEntries areaDb.unicastEntries
          mplsEntries :=
            mergeKeepExisting db.mplsEntries areaDb.mplsEntries }
      | none => db) {}

/-- `Decision::buildRouteDb` (Decision.cpp:2359-2382): fold the per-area
SpfSolver results (abstracted as `areaResults`; `none` for an area where
the solver returned `std::nullopt`) into one merged DB, and return `none`
exactly when the merged DB has neither unicast nor MPLS entries. -/
def decisionBuildRouteDb (areaResults : List (Option DecisionRouteDb)) :
    Option DecisionRouteDb :=
  let db := mergeAreaResults areaResults
  if db.unicastEntries.entries.isEmpty && db.mplsEntries.entries.isEmpty
  then none
  else some db

/-- Outcome of `Decision::coldStartUpdate` (Decision.cpp:2343-2357). -/
inductive ColdStartOutcome where
  | emptyOptionalDeref
  | sent (db : DecisionRouteDb)

/-- `Decision::coldStartUpdate`: when `buildRouteDb` yields no value the
code executes `sendRouteUpdate(std::move(*maybeRouteDb), ...)` -- a
dereference of the empty `std::optional`, which is undefined behaviour,
modelled as the distinguished outcome `emptyOptionalDeref`. -/
def coldStartUpdate (areaResults : List (Option DecisionRouteDb)) :
    ColdStartOutcome :=
  match decisionBuildRouteDb areaResults with
  | none => ColdStartOutcome.emptyOptionalDeref
  | some db => ColdStartOutcome.sent db

/-- C6.  **coldStartUpdate dereferences an empty optional when no routes
exist.**  When the cold-start timer fires and the route build yields no
value (no areas, or an area whose solver produced an entirely empty DB),
the cold-start path reaches the dereference of the empty
`std::optional` instead of emitting an empty RouteDb delta as the spec
requires. -/
theorem coldStartUpdate_derefs_empty_optional :
    coldStartUpdate [] = ColdStartOutcome.emptyOptionalDeref ∧
    coldStartUpdate [some {}, none] =
      ColdStartOutcome.emptyOptionalDeref := by
  exact ⟨rfl, rfl⟩

/-! ## Publication processing: perfEvents on prefix updates (C7) -/

/-- thrift::PerfEvents: an opaque list of (event name, node name) pairs. -/
structure PerfEvents where
  events : List (String × String) := []
deriving DecidableEq, Repr

/-- Modelled from the spec: the `PendingUpdates` accumulator
(openr/decision/PendingUpdates, not part of the excerpt) counts applied
changes and keeps the perfEvents attached with them. -/
structure PendingUpdates where
  count : Nat := 0
  perfEvents : Option PerfEvents := none
deriving DecidableEq, Repr

/-- Modelled from the spec: `PendingUpdates::applyPrefixStateChange`.  Its
perfEvents parameter defaults to `std::nullopt` when the call site passes
only one argument; when perfEvents are supplied and none are stored yet
they are attached to the accumulated record. -/
def applyPrefixStateChange (p : PendingUpdates) (changed : List IpPrefix)
    (perfEvents : Option PerfEvents) : PendingUpdates :=
  { count := p.count + changed.length
    perfEvents :=
      match p.perfEvents with
      | some pe => some pe
      | none => perfEvents }

/-- The prefix-update branch of `Decision::processPublication`
(Decision.cpp:2184-2197).  `nodePrefixDb` carries the publication's
perfEvents (copied by `updateNodePrefixDatabase`, line 2108), and
`changedPrefixes` abstracts `prefixState_.updatePrefixDatabase(...)`.
The source statement is
`pendingUpdates_.applyPrefixStateChange(prefixState_.updatePrefixDatabase(nodePrefixDb)), castToStd(nodePrefixDb.perfEvents_ref());`
-- the comma before `castToStd` ends the argument list, so the perfEvents
expression is evaluated and discarded and `applyPrefixStateChange` runs
with its defaulted `std::nullopt` perfEvents argument. -/
def processPrefixDbUpdate (p : PendingUpdates)
    (changedPrefixes : List IpPrefix) (pubPerfEvents : Option PerfEvents) :
    PendingUpdates :=
  let _discarded := pubPerfEvents
  applyPrefixStateChange p changedPrefixes none

/-- C7.  **perfEvents are dropped from prefix updates.**  For every
prefix-database update processed from an LSDB publication, the
pending-update record keeps whatever perfEvents it already had and never
receives the publication's: in particular, starting from an empty record,
a publication carrying perfEvents leaves the accumulated perfEvents
empty, contradicting the claim that they are attached. -/
theorem processPrefixDbUpdate_drops_perfEvents :
    (∀ p changed pubPe,
      (processPrefixDbUpdate p changed pubPe).perfEvents = p.perfEvents) ∧
    (processPrefixDbUpdate {} [{ addr := "addr4", prefixLength := 24 }]
      (some { events := [("DECISION_RECEIVED", "node1")] })).perfEvents
      = none := by
  constructor
  · intro p changed pubPe
    cases hp : p.perfEvents <;>
      simp [processPrefixDbUpdate, applyPrefixStateChange, hp]
  · rfl

/-! ## setRibPolicy staleness handling (C8) -/

/-- The observable completion of the future returned by
`Decision::setRibPolicy`.  `promiseBroken` means the moved-in
`folly::Promise` is destroyed without `setValue` or `setException` being
called: the caller's future receives a BrokenPromise error, not a typed
one.  `errStale` (a typed "stale" failure) is what the spec claims for
the stale case; the code never produces it. -/
inductive SetRibPolicyOutcome where
  | errDisabled
  | errInvalid
  | errStale
  | promiseBroken
  | ok
deriving DecidableEq, Repr

/-- Decision's RIB-policy state: the active policy (represented by its
expiry instant) and the scheduled expiry timeout, if any. -/
structure RibPolicyState where
  ribPolicy : Option Int := none
  ribPolicyTimer : Option Int := none
deriving DecidableEq, Repr

/-- `Decision::setRibPolicy` (Decision.cpp:2012-2055).  `enabled` is
`config_->isRibPolicyEnabled()`; `valid` abstracts the `RibPolicy`
constructor not throwing (its validation is outside the excerpt);
`durationLeft = expiry - now` is `ribPolicy->getTtlDuration()`.  In the
stale branch (`durationLeft.count() <= 0`) the lambda logs and returns
without touching `ribPolicy_`, the timer, or the promise. -/
def setRibPolicy (s : RibPolicyState) (enabled valid : Bool)
    (expiry now : Int) : RibPolicyState × SetRibPolicyOutcome :=
  if !enabled then (s, .errDisabled)
  else if !valid then (s, .errInvalid)
  else
    let durationLeft := expiry - now
    if durationLeft ≤ 0 then (s, .promiseBroken)
    else
      ({ ribPolicy := some expiry, ribPolicyTimer := some durationLeft },
        .ok)

/-- C8 counterexample.  At a concrete stale input (expiry 5, now 10, the
feature enabled, the policy well-formed) the caller's future is NOT
completed with a typed "stale" failure: the promise is simply dropped. -/
theorem setRibPolicy_stale_not_typed_failure :
    (setRibPolicy {} true true 5 10).2 = SetRibPolicyOutcome.promiseBroken
      ∧ (setRibPolicy {} true true 5 10).2 ≠ SetRibPolicyOutcome.errStale
      ∧ (setRibPolicy {} true true 5 10).1 = {} := by
  refine ⟨rfl, ?_, rfl⟩
  decide

/-- C8 (amended).  A policy whose remaining TTL (`expiry - now`) is
non-positive is rejected: the active policy and its expiry timer are left
unchanged and the caller's future is never fulfilled -- the promise is
abandoned (surfacing a broken-promise error), not completed with a typed
"stale" failure.  Conversely any accepted (`ok`) policy had a strictly
positive TTL at acceptance. -/
theorem setRibPolicy_stale_behaviour (s : RibPolicyState)
    (enabled valid : Bool) (expiry now : Int) :
    (expiry - now ≤ 0 → enabled = true → valid = true →
      setRibPolicy s enabled valid expiry now =
        (s, SetRibPolicyOutcome.promiseBroken)) ∧
    ((setRibPolicy s enabled valid expiry now).2 = SetRibPolicyOutcome.ok →
      0 < expiry - now) := by
  constructor
  · intro h he hv
    subst he; subst hv
    simp [setRibPolicy, h]
  · intro h
    by_contra hpos
    push_neg at hpos
    have : expiry - now ≤ 0 := hpos
    cases enabled <;> cases valid <;>
      simp [setRibPolicy, this] at h

theorem setRibPolicy_stale_behaviour_witness :
    setRibPolicy {} true true 5 10 =
      ({}, SetRibPolicyOutcome.promiseBroken) :=
  (setRibPolicy_stale_behaviour {} true true 5 10).1 (by decide) rfl rfl

/-! ## Static MPLS route squashing (C9) -/

/-- thrift::MplsRoute: a top label and an ordered list of next-hops. -/
structure MplsRoute where
  topLabel : Int
  nextHops : List NextHop := []
deriving DecidableEq, Repr

/-- The MPLS part of the thrift::RouteDatabaseDelta flowing on the
static-routes path (input of `pushRoutesDeltaUpdates`, output of
`processStaticRouteUpdates`); the unicast fields are unused there. -/
structure StaticRouteDelta where
  mplsRoutesToUpdate : List MplsRoute := []
  mplsRoutesToDelete : List Int := []
deriving DecidableEq, Repr

/-- One squash action, in arrival order. -/
inductive StaticAction where
  | upd (r : MplsRoute)
  | del (l : Int)
deriving DecidableEq, Repr

def StaticAction.labelOf : StaticAction → Int
  | .upd r => r.topLabel
  | .del l => l

/-- The action stream of one delta: its updates are processed before its
deletes (Decision.cpp:1394-1408). -/
def actionsOfDelta (d : StaticRouteDelta) : List StaticAction :=
  d.mplsRoutesToUpdate.map StaticAction.upd ++
    d.mplsRoutesToDelete.map StaticAction.del

/-- One step of the squash (the loop bodies of Decision.cpp:1394-1408):
an update overwrites the pending update for its label and cancels a
pending delete; a delete records the label and cancels a pending
update. -/
def squashStep (acc : AList (fun _ : Int => MplsRoute) × Finset Int) :
    StaticAction → AList (fun _ : Int => MplsRoute) × Finset Int
  | .upd r => (acc.1.insert r.topLabel r, acc.2.erase r.topLabel)
  | .del l => (acc.1.erase l, insert l acc.2)

/-- The squash of the accumulated `staticRoutesUpdates_`
(Decision.cpp:1393-1408): `routesToUpdate` and `routesToDel`. -/
def squashStaticUpdates (pending : List StaticRouteDelta) :
    AList (fun _ : Int => MplsRoute) × Finset Int :=
  pending.foldl (fun acc d => (actionsOfDelta d).foldl squashStep acc)
    (∅, ∅)

/-- `SpfSolver::SpfSolverImpl::processStaticRouteUpdates`
(Decision.cpp:1388-1429): squash the pending deltas, clear the pending
list, and -- unless the squash is empty -- apply updates then deletes to
`staticRoutes_.mplsRoutes` and return the squashed delta. -/
structure SpfSolverStaticState where
  staticMplsRoutes : AList (fun _ : Int => List NextHop) := ∅
  staticRoutesUpdates : List StaticRouteDelta := []

/-- The two apply loops of Decision.cpp:1417-1426: write every squashed
update into `staticRoutes_.mplsRoutes`, then erase every squashed delete
(the two key sets are disjoint by construction).  The delete set is
iterated in sorted order (`std::unordered_set` iteration order is
unspecified). -/
def applySquashToStatic (base : AList (fun _ : Int => List NextHop))
    (sq : AList (fun _ : Int => MplsRoute) × Finset Int) :
    AList (fun _ : Int => List NextHop) :=
  (sq.2.sort (· ≤ ·)).foldl (fun m l => m.erase l)
    ((sq.1.entries.map (fun e => (e.1, e.2.nextHops))).foldl
      (fun m e => m.insert e.1 e.2) base)

def processStaticRouteUpdates (s : SpfSolverStaticState) :
    SpfSolverStaticState × Option StaticRouteDelta :=
  let sq := squashStaticUpdates s.staticRoutesUpdates
  if sq.1.entries.isEmpty && decide (sq.2 = ∅) then
    ({ s with staticRoutesUpdates := [] }, none)
  else
    ({ staticMplsRoutes := applySquashToStatic s.staticMplsRoutes sq
       staticRoutesUpdates := [] },
      some { mplsRoutesToUpdate := sq.1.entries.map (fun e => e.2)
             mplsRoutesToDelete := sq.2.sort (· ≤ ·) })

/-- The last action for label `l` in an action stream, folded with an
arbitrary seed (later actions win). -/
def lastActionAux (l : Int) (s : Option StaticAction)
    (acts : List StaticAction) : Option StaticAction :=
  acts.foldl (fun acc a => if a.labelOf = l then some a else acc) s

/-- The last squash action affecting label `l` across the pending deltas,
in arrival order. -/
def lastActionFor (pending : List StaticRouteDelta) (l : Int) :
    Option StaticAction :=
  lastActionAux l none (pending.flatMap actionsOfDelta)

theorem lastActionAux_seed (l : Int) (acts : List StaticAction)
    (s : Option StaticAction) :
    lastActionAux l s acts =
      match lastActionAux l none acts with
      | some a => some a
      | none => s := by
  induction acts generalizing s with
  | nil => rfl
  | cons a t ih =>
    show lastActionAux l (if a.labelOf = l then some a else s) t = _
    have h2 : lastActionAux l none (a :: t) =
        lastActionAux l (if a.labelOf = l then some a else none) t := rfl
    rw [h2]
    by_cases h : a.labelOf = l
    · rw [if_pos h, if_pos h, ih (some a)]
      rcases lastActionAux l none t with _ | b <;> rfl
    · rw [if_neg h, if_neg h, ih s]

theorem squashStep_foldl_lookup (acts : List StaticAction)
    (acc : AList (fun _ : Int => MplsRoute) × Finset Int) (l : Int) :
    (acts.foldl squashStep acc).1.lookup l =
      (match lastActionAux l none acts with
        | some (.upd r) => some r
        | some (.del _) => none
        | none => acc.1.lookup l) := by
  induction acts generalizing acc with
  | nil => rfl
  | cons a t ih =>
    show (t.foldl squashStep (squashStep acc a)).1.lookup l = _
    rw [ih (squashStep acc a)]
    have h2 : lastActionAux l none (a :: t) =
        match lastActionAux l none t with
        | some b => some b
        | none => if a.labelOf = l then some a else none := by
      show lastActionAux l (if a.labelOf = l then some a else none) t = _
      rw [lastActionAux_seed]
    rw [h2]
    rcases lastActionAux l none t with _ | b
    · by_cases h : a.labelOf = l
      · rw [if_pos h]
        cases a with
        | upd r =>
          have hr : r.topLabel = l := h
          subst hr
          exact AList.lookup_insert acc.1
        | del l' =>
          have hr : l' = l := h
          subst hr
          exact AList.lookup_erase l' acc.1
      · rw [if_neg h]
        cases a with
        | upd r => exact AList.lookup_insert_ne (Ne.symm h)
        | del l' => exact AList.lookup_erase_ne (Ne.symm h)
    · rcases b with r | l' <;> rfl

theorem squashStep_foldl_delSet (acts : List StaticAction)
    (acc : AList (fun _ : Int => MplsRoute) × Finset Int) (l : Int) :
    (l ∈ (acts.foldl squashStep acc).2) ↔
      (match lastActionAux l none acts with
        | some (.upd _) => False
        | some (.del _) => True
        | none => l ∈ acc.2) := by
  induction acts generalizing acc with
  | nil => exact Iff.rfl
  | cons a t ih =>
    show (l ∈ (t.foldl squashStep (squashStep acc a)).2) ↔ _
    rw [ih (squashStep acc a)]
    have h2 : lastActionAux l none (a :: t) =
        match lastActionAux l none t with
        | some b => some b
        | none => if a.labelOf = l then some a else none := by
      show lastActionAux l (if a.labelOf = l then some a else none) t = _
      rw [lastActionAux_seed]
    rw [h2]
    rcases lastActionAux l none t with _ | b
    · by_cases h : a.labelOf = l
      · rw [if_pos h]
        cases a with
        | upd r =>
          have hr : r.topLabel = l := h
          subst hr
          show r.topLabel ∈ acc.2.erase r.topLabel ↔ False
          simp
        | del l' =>
          have hr : l' = l := h
          subst hr
          show l' ∈ insert l' acc.2 ↔ True
          simp
      · rw [if_neg h]
        cases a with
        | upd r =>
          show l ∈ acc.2.erase r.topLabel ↔ l ∈ acc.2
          have hne : l ≠ r.topLabel := fun hh => h hh.symm
          simp [Finset.mem_erase, hne]
        | del l' =>
          show l ∈ insert l' acc.2 ↔ l ∈ acc.2
          have hne : l ≠ l' := fun hh => h hh.symm
          simp [Finset.mem_insert, hne]
    · rcases b with r | l' <;> exact Iff.rfl

theorem squashStaticUpdates_eq_flat (pending : List StaticRouteDelta) :
    squashStaticUpdates pending =
      (pending.flatMap actionsOfDelta).foldl squashStep (∅, ∅) := by
  show List.foldl _ (∅, ∅) pending = _
  generalize ((∅, ∅) :
    AList (fun _ : Int => MplsRoute) × Finset Int) = init
  induction pending generalizing init with
  | nil => rfl
  | cons d t ih =>
    show t.foldl _ ((actionsOfDelta d).foldl squashStep init) = _
    rw [ih]
    show _ = (actionsOfDelta d ++ t.flatMap actionsOfDelta).foldl
      squashStep init
    rw [List.foldl_append]

theorem lastActionAux_labelOf (l : Int) (acts : List StaticAction) :
    ∀ (s : Option StaticAction), (∀ b, s = some b → b.labelOf = l) →
      ∀ a, lastActionAux l s acts = some a → a.labelOf = l := by
  induction acts with
  | nil => exact fun s hs a ha => hs a ha
  | cons x t ih =>
    intro s hs a ha
    refine ih _ ?_ a ha
    intro b hb
    have hb' : (if x.labelOf = l then some x else s) = some b := hb
    by_cases h : x.labelOf = l
    · rw [if_pos h] at hb'
      cases hb'
      exact h
    · rw [if_neg h] at hb'
      exact hs b hb'

/-- C9.  **Static-route squashing** (Decision.cpp:1388-1429).  For each
MPLS label the last accumulated action in arrival order wins (within one
delta, its updates precede its deletes): the squashed update map holds
exactly the labels whose last action is an update (with that route), the
squashed delete set exactly those whose last action is a delete; the
stored `staticRoutes_.mplsRoutes` reflect exactly this squashed state
(unchanged where no action occurred), and the pending-delta list is
cleared. -/
theorem processStaticRouteUpdates_squashes (s : SpfSolverStaticState)
    (l : Int) :
    ((processStaticRouteUpdates s).1.staticRoutesUpdates = []) ∧
    ((squashStaticUpdates s.staticRoutesUpdates).1.lookup l =
      match lastActionFor s.staticRoutesUpdates l with
      | some (.upd r) => some r
      | _ => none) ∧
    (l ∈ (squashStaticUpdates s.staticRoutesUpdates).2 ↔
      lastActionFor s.staticRoutesUpdates l =
        some (StaticAction.del l)) ∧
    ((processStaticRouteUpdates s).1.staticMplsRoutes.lookup l =
      match lastActionFor s.staticRoutesUpdates l with
      | some (.upd r) => some r.nextHops
      | some (.del _) => none
      | none => s.staticMplsRoutes.lookup l) := by
  have hflat := squashStaticUpdates_eq_flat s.staticRoutesUpdates
  have hlook :
      (squashStaticUpdates s.staticRoutesUpdates).1.lookup l =
        match lastActionFor s.staticRoutesUpdates l with
        | some (.upd r) => some r
        | some (.del _) => none
        | none => (∅ : AList (fun _ : Int => MplsRoute)).lookup l := by
    rw [hflat]
    exact squashStep_foldl_lookup _ (∅, ∅) l
  have hlookNone : (∅ : AList (fun _ : Int => MplsRoute)).lookup l = none :=
    rfl
  have hdelset :
      l ∈ (squashStaticUpdates s.staticRoutesUpdates).2 ↔
        match lastActionFor s.staticRoutesUpdates l with
        | some (.upd _) => False
        | some (.del _) => True
        | none => l ∈ (∅ : Finset Int) := by
    rw [hflat]
    exact squashStep_foldl_delSet _ (∅, ∅) l
  have hlabel : ∀ a, lastActionFor s.staticRoutesUpdates l = some a →
      a.labelOf = l :=
    lastActionAux_labelOf l _ none (by intro b hb; cases hb)
  refine ⟨?_, ?_, ?_, ?_⟩
  · simp only [processStaticRouteUpdates]
    split <;> rfl
  · rw [hlook]
    rcases lastActionFor s.staticRoutesUpdates l with _ | a
    · rfl
    · rcases a with r | l' <;> rfl
  · rw [hdelset]
    rcases hlast : lastActionFor s.staticRoutesUpdates l with _ | a
    · simp
    · rcases a with r | l'
      · simp
      · have hl : l' = l := hlabel _ hlast
        subst hl
        simp
  · -- the stored static routes after applying the squashed delta
    have happly : ∀ (hbranch : ¬ ((squashStaticUpdates
        s.staticRoutesUpdates).1.entries.isEmpty &&
          decide ((squashStaticUpdates s.staticRoutesUpdates).2
            = ∅)) = true),
        (processStaticRouteUpdates s).1.staticMplsRoutes =
          applySquashToStatic s.staticMplsRoutes
            (squashStaticUpdates s.staticRoutesUpdates) := by
      intro hbranch
      simp only [processStaticRouteUpdates]
      rw [if_neg hbranch]
    rcases hlast : lastActionFor s.staticRoutesUpdates l with _ | a
    · -- no action for l: stored routes unchanged at l
      have hval : ∀ (m : AList (fun _ : Int => List NextHop)),
          m = applySquashToStatic s.staticMplsRoutes
            (squashStaticUpdates s.staticRoutesUpdates) →
          m.lookup l = s.staticMplsRoutes.lookup l := by
        intro m hm
        subst hm
        unfold applySquashToStatic
        have hnotdel :
            l ∉ (squashStaticUpdates s.staticRoutesUpdates).2.sort
              (· ≤ ·) := by
          intro hmem
          have hin := (hdelset).1 ((Finset.mem_sort _).1 hmem)
          rw [hlast] at hin
          exact Finset.not_mem_empty l hin
        rw [lookup_foldl_erase_not_mem _ _ _ hnotdel]
        have hnoupd : ∀ e ∈ (squashStaticUpdates
            s.staticRoutesUpdates).1.entries.map
              (fun e => (e.1, e.2.nextHops)), e.1 ≠ l := by
          intro e hmem he
          rcases List.mem_map.1 hmem with ⟨se, hse, hpe⟩
          have hfst : se.1 = l := by
            rw [← he, ← hpe]
          have hsome : (squashStaticUpdates
              s.staticRoutesUpdates).1.lookup l = some se.2 := by
            apply AList.mem_lookup_iff.2
            cases se
            cases hfst
            exact hse
          rw [hlook, hlast] at hsome
          exact Option.noConfusion hsome
        rw [lookup_foldl_insert_not_mem _ _ _ hnoupd]
      simp only [processStaticRouteUpdates]
      split
      · rfl
      · exact hval _ rfl
    · rcases a with r | l'
      · -- last action is an update: route stored
        have hup : (squashStaticUpdates
            s.staticRoutesUpdates).1.lookup l = some r := by
          rw [hlook, hlast]
        have hne : ¬ ((squashStaticUpdates
            s.staticRoutesUpdates).1.entries.isEmpty &&
              decide ((squashStaticUpdates s.staticRoutesUpdates).2
                = ∅)) = true := by
          intro habs
          rw [Bool.and_eq_true] at habs
          have hmem := AList.mem_lookup_iff.1 hup
          rcases hent : (squashStaticUpdates
              s.staticRoutesUpdates).1.entries with _ | ⟨e, t⟩
          · rw [hent] at hmem
            cases hmem
          · rw [hent] at habs
            exact Bool.noConfusion habs.1
        rw [happly hne]
        unfold applySquashToStatic
        have hnotdel :
            l ∉ (squashStaticUpdates s.staticRoutesUpdates).2.sort
              (· ≤ ·) := by
          intro hmem
          have hin := (hdelset).1 ((Finset.mem_sort _).1 hmem)
          rw [hlast] at hin
          exact hin
        rw [lookup_foldl_erase_not_mem _ _ _ hnotdel]
        have hkv : (l, r.nextHops) ∈ (squashStaticUpdates
            s.staticRoutesUpdates).1.entries.map
              (fun e => (e.1, e.2.nextHops)) := by
          apply List.mem_map.2
          exact ⟨⟨l, r⟩, AList.mem_lookup_iff.1 hup, rfl⟩
        have hnd : (((squashStaticUpdates
            s.staticRoutesUpdates).1.entries.map
              (fun e => (e.1, e.2.nextHops))).map Prod.fst).Nodup := by
          have hmm : ((squashStaticUpdates
              s.staticRoutesUpdates).1.entries.map
                (fun e => (e.1, e.2.nextHops))).map Prod.fst =
              (squashStaticUpdates s.staticRoutesUpdates).1.keys := by
            simp [List.map_map, AList.keys, List.keys]
          rw [hmm]
          exact (squashStaticUpdates s.staticRoutesUpdates).1.keys_nodup
        rw [lookup_foldl_insert_mem _ _ _ _ hnd hkv]
      · -- last action is a delete: route erased
        have hl : l' = l := by
          have := hlabel _ hlast
          exact this
        subst hl
        have hdel : l' ∈ (squashStaticUpdates s.staticRoutesUpdates).2 := by
          rw [hdelset, hlast]
          exact trivial
        have hne : ¬ ((squashStaticUpdates
            s.staticRoutesUpdates).1.entries.isEmpty &&
              decide ((squashStaticUpdates s.staticRoutesUpdates).2
                = ∅)) = true := by
          intro habs
          rw [Bool.and_eq_true] at habs
          have h2 := of_decide_eq_true habs.2
          rw [h2] at hdel
          cases hdel
        rw [happly hne]
        unfold applySquashToStatic
        exact lookup_foldl_erase_mem _ _ _ ((Finset.mem_sort _).2 hdel)

/-! ## Links, paths, and the KSP2 anti-double-spray filter (C3) -/

/-- A bidirectional link of LinkState, as read through the accessors used
by Decision.cpp: `getMetricFromNode`, `getOtherNodeName`,
`getNhV4FromNode`, `getNhV6FromNode`, `getIfaceFromNode`, `getArea`,
`getAdjLabelFromNode`, `isUp`.  Direction-1 fields are the view from
`n1`, direction-2 fields the view from `n2`. -/
structure Link where
  n1 : String
  n2 : String
  metric1 : Nat := 1
  metric2 : Nat := 1
  nhV4From1 : String := ""
  nhV4From2 : String := ""
  nhV6From1 : String := ""
  nhV6From2 : String := ""
  ifaceFrom1 : String := ""
  ifaceFrom2 : String := ""
  adjLabel1 : Int := 0
  adjLabel2 : Int := 0
  area : Option String := none
  up : Bool := true
deriving DecidableEq, Repr

def Link.getOtherNodeName (l : Link) (n : String) : String :=
  if n = l.n1 then l.n2 else l.n1

def Link.getMetricFromNode (l : Link) (n : String) : Nat :=
  if n = l.n1 then l.metric1 else l.metric2

def Link.getNhV4FromNode (l : Link) (n : String) : String :=
  if n = l.n1 then l.nhV4From1 else l.nhV4From2

def Link.getNhV6FromNode (l : Link) (n : String) : String :=
  if n = l.n1 then l.nhV6From1 else l.nhV6From2

def Link.getIfaceFromNode (l : Link) (n : String) : String :=
  if n = l.n1 then l.ifaceFrom1 else l.ifaceFrom2

def Link.getArea (l : Link) : Option String := l.area

def Link.isUp (l : Link) : Bool := l.up

/-- `LinkState::Path`: an ordered list of links. -/
abbrev Path := List Link

/-- `a` starts `b`: `a` is an initial segment of `b`. -/
def listStartsWith {α : Type} [DecidableEq α] : List α → List α → Bool
  | [], _ => true
  | _ :: _, [] => false
  | a :: as, b :: bs => decide (a = b) && listStartsWith as bs

/-- `a` occurs somewhere in `b` as a contiguous run. -/
def listContainsChain {α : Type} [DecidableEq α] (a : List α) :
    List α → Bool
  | [] => listStartsWith a []
  | b :: bs => listStartsWith a (b :: bs) || listContainsChain a bs

/-- Modelled from the spec: `LinkState::pathAInPathB` (LinkState.cpp, not
part of the excerpt): path `a` occurs in path `b` as a contiguous
sub-sequence of `b`'s edges. -/
def pathAInPathB (a b : Path) : Bool := listContainsChain a b

/-- The first-shortest-path collection loop of `selectKsp2`
(Decision.cpp:1447-1456): for every best node other than `myNodeName`,
append `getKthPaths(myNodeName, node, 1)`. -/
def ksp2FirstPaths (kthPaths : String → String → Nat → List Path)
    (myNodeName : String) (nodes : List String) : List Path :=
  nodes.foldl
    (fun acc node =>
      if node = myNodeName then acc else acc ++ kthPaths myNodeName node 1)
    []

/-- The whole path collection of `selectKsp2` (Decision.cpp:1444-1480):
first paths, then for every best node the second-shortest paths
`getKthPaths(myNodeName, node, 2)`, each added only when no collected
first path occurs in it (`pathAInPathB(paths[i], secPath)` for
`i < firstPathsSize`). -/
def ksp2AllPaths (kthPaths : String → String → Nat → List Path)
    (myNodeName : String) (nodes : List String) : List Path :=
  nodes.foldl
    (fun acc node =>
      acc ++ (kthPaths myNodeName node 2).filter
        (fun secPath =>
          !((ksp2FirstPaths kthPaths myNodeName nodes).any
            (fun f => pathAInPathB f secPath))))
    (ksp2FirstPaths kthPaths myNodeName nodes)

theorem foldl_append_acc {α β : Type} (g : α → List β) (l : List α)
    (acc : List β) :
    l.foldl (fun acc n => acc ++ g n) acc = acc ++ l.flatMap g := by
  induction l generalizing acc with
  | nil => simp
  | cons a t ih =>
    simp only [List.foldl_cons, List.flatMap_cons]
    rw [ih, List.append_assoc]

theorem ksp2AllPaths_decompose
    (kthPaths : String → String → Nat → List Path)
    (myNodeName : String) (nodes : List String) :
    ksp2AllPaths kthPaths myNodeName nodes =
      ksp2FirstPaths kthPaths myNodeName nodes ++
        (nodes.flatMap (fun node => kthPaths myNodeName node 2)).filter
          (fun secPath =>
            !((ksp2FirstPaths kthPaths myNodeName nodes).any
              (fun f => pathAInPathB f secPath))) := by
  unfold ksp2AllPaths
  rw [foldl_append_acc
    (fun node => (kthPaths myNodeName node 2).filter
      (fun secPath =>
        !((ksp2FirstPaths kthPaths myNodeName nodes).any
          (fun f => pathAInPathB f secPath))))]
  rw [List.filter_flatMap]

/-- C3.  **KSP2 anti-double-spray filter** (Decision.cpp:1458-1480).
Every path in the retained set beyond the collected first-shortest paths
(i.e. every retained second-shortest path) contains no retained
first-shortest path -- for any destination of the prefix -- as a
contiguous sub-sequence of its edges; equivalently every second path
containing a first path was rejected. -/
theorem selectKsp2_second_paths_filtered
    (kthPaths : String → String → Nat → List Path)
    (myNodeName : String) (nodes : List String) (p : Path)
    (hp : p ∈ (ksp2AllPaths kthPaths myNodeName nodes).drop
      (ksp2FirstPaths kthPaths myNodeName nodes).length)
    (f : Path) (hf : f ∈ ksp2FirstPaths kthPaths myNodeName nodes) :
    pathAInPathB f p = false := by
  rw [ksp2AllPaths_decompose, List.drop_left] at hp
  have hcond := List.of_mem_filter hp
  have hany : ((ksp2FirstPaths kthPaths myNodeName nodes).any
      (fun g => pathAInPathB g p)) = false := by
    cases hval : ((ksp2FirstPaths kthPaths myNodeName nodes).any
        (fun g => pathAInPathB g p)) with
    | false => rfl
    | true =>
      rw [hval] at hcond
      exact Bool.noConfusion hcond
  have hall := List.any_eq_false.1 hany
  cases hres : pathAInPathB f p with
  | false => rfl
  | true => exact absurd hres (hall f hf)

/-- Concrete four-node scenario for the filter: `A` reaches `B` and `C`;
the second path to `B` (A-C-B) contains the first path to `C` (A-C) and
is rejected; the second path to `C` (A-D, D-C) contains no first path and
is retained. -/
def linkAB : Link := { n1 := "A", n2 := "B" }

def linkAC : Link := { n1 := "A", n2 := "C" }

def linkCB : Link := { n1 := "C", n2 := "B" }

def linkAD : Link := { n1 := "A", n2 := "D" }

def linkDC : Link := { n1 := "D", n2 := "C" }

def kthPathsDemo : String → String → Nat → List Path := fun _ dst k =>
  if dst = "B" && k == 1 then [[linkAB]]
  else if dst = "C" && k == 1 then [[linkAC]]
  else if dst = "B" && k == 2 then [[linkAC, linkCB]]
  else if dst = "C" && k == 2 then [[linkAD, linkDC]]
  else []

theorem selectKsp2_second_paths_filtered_witness :
    pathAInPathB [linkAB] [linkAD, linkDC] = false :=
  selectKsp2_second_paths_filtered kthPathsDemo "A" ["B", "C"]
    [linkAD, linkDC] (by decide) [linkAB] (by decide)

/-! ## selectKsp2 and the minNexthop gate (C5) -/

/-- BestPathCalResult (openr/decision/RibEntry.h view used here). -/
structure BestPathCalResult where
  success : Bool := false
  nodes : List String := []
  bestNode : String := ""
  bestIgpMetric : Option Int := none
deriving DecidableEq, Repr

/-- Lookup in the `nodePrefixes` map (advertiser -> PrefixEntry). -/
def lookupNP (nodePrefixes : List (String × PrefixEntry)) (n : String) :
    Option PrefixEntry :=
  (nodePrefixes.find? (fun kv => kv.1 == n)).map Prod.snd

/-- `SpfSolver::SpfSolverImpl::getMinNextHopThreshold`
(Decision.cpp:1165-1182): the max of the `minNexthop` values of the
nodes in the best-path result (looked up among the advertisers). -/
def getMinNextHopThreshold (nodes : BestPathCalResult)
    (nodePrefixes : List (String × PrefixEntry)) : Option Int :=
  nodes.nodes.foldl
    (fun maxMinNexthopForPrefix node =>
      match lookupNP nodePrefixes node with
      | some pe =>
        match pe.minNexthop, maxMinNexthopForPrefix with
        | some mn, none => some mn
        | some mn, some mx => if mn > mx then some mn else some mx
        | none, mx => mx
      | none => maxMinNexthopForPrefix)
    none

/-- `SpfSolver::SpfSolverImpl::maybeFilterDrainedNodes`
(Decision.cpp:1184-1196): drop overloaded nodes; if that empties the set,
keep the unfiltered result. -/
def maybeFilterDrainedNodes (result : BestPathCalResult)
    (isNodeOverloaded : String → Bool) : BestPathCalResult :=
  let filtered :=
    { result with nodes := result.nodes.filter (fun n => !isNodeOverloaded n) }
  if filtered.nodes.isEmpty then result else filtered

/-- The `not hasBgp` branch of
`SpfSolver::SpfSolverImpl::getBestAnnouncingNodes`
(Decision.cpp:1087-1122): for KSP2 require every advertiser to declare
SR_MPLS forwarding (else fail with `incompatible_forwarding_type`); fail
when this node advertises the prefix itself; otherwise all advertisers
are best nodes, drained-filtered. -/
def getBestAnnouncingNodesNonBgp (myNodeName : String)
    (nodePrefixes : List (String × PrefixEntry)) (useKsp2EdAlgo : Bool)
    (isNodeOverloaded : String → Bool) : BestPathCalResult :=
  if useKsp2EdAlgo &&
      nodePrefixes.any
        (fun kv => kv.2.forwardingType != PrefixForwardingType.SR_MPLS)
  then {}
  else if nodePrefixes.any (fun kv => kv.1 == myNodeName) then {}
  else
    maybeFilterDrainedNodes
      { success := true, nodes := nodePrefixes.map Prod.fst }
      isNodeOverloaded

/-- The per-path walk of `selectKsp2` (Decision.cpp:1486-1498): running
from `myNodeName`, accumulate the cost and push the next node's label at
the front; state is (cost, labels, current node). -/
def walkPathStep (nodeLabelOf : String → Int)
    (st : Nat × List Int × String) (link : Link) :
    Nat × List Int × String :=
  let cost := st.1 + link.getMetricFromNode st.2.2
  let nextNodeName := link.getOtherNodeName st.2.2
  (cost, nodeLabelOf nextNodeName :: st.2.1, nextNodeName)

/-- One path to one next-hop (Decision.cpp:1486-1526).  `labels.pop_back`
(PHP for the first hop) is `dropLast`; the destination's `prependLabel`
goes to the front (bottom of the PUSH stack); the next-hop address is the
first link's v4 or v6 neighbor address by prefix family.  `none` for an
empty path (the source `CHECK_GE(path.size(), 1)`); the `.at` lookups of
the adjacency and prefix maps are totalized through `nodeLabelOf` and an
`Option`-returning lookup (the destination of a path advertises the
prefix in every reachable state). -/
def pathToNextHop (myNodeName : String) (nodeLabelOf : String → Int)
    (nodePrefixes : List (String × PrefixEntry)) (isV4Prefix : Bool) :
    Path → Option NextHop
  | [] => none
  | firstLink :: rest =>
    let st := (firstLink :: rest).foldl (walkPathStep nodeLabelOf)
      (0, [], myNodeName)
    let labels0 := st.2.1.dropLast
    let endNode := st.2.2
    let labels :=
      match (lookupNP nodePrefixes endNode).bind
          (fun pe => pe.prependLabel) with
      | some pl => pl :: labels0
      | none => labels0
    let mplsAction :=
      if labels.isEmpty then none
      else some { action := MplsActionCode.PUSH, pushLabels := some labels }
    some
      { address :=
          if isV4Prefix then firstLink.getNhV4FromNode myNodeName
          else firstLink.getNhV6FromNode myNodeName
        iface := some (firstLink.getIfaceFromNode myNodeName)
        metric := st.1
        mplsAction := mplsAction
        useNonShortestRoute := true
        area := firstLink.getArea }

/-- The dynamic next-hop set of `selectKsp2`: one emplace per retained
path (Decision.cpp:1486-1526). -/
def ksp2DynNexthops (myNodeName : String) (nodeLabelOf : String → Int)
    (nodePrefixes : List (String × PrefixEntry)) (isV4Prefix : Bool)
    (paths : List Path) : Finset NextHop :=
  paths.foldl
    (fun s path =>
      match pathToNextHop myNodeName nodeLabelOf nodePrefixes isV4Prefix
          path with
      | some nh => insert nh s
      | none => s)
    ∅

/-- The static part of `selectKsp2` (Decision.cpp:1528-1549): when this
node is one of the ECMP nodes, look up its prepend-label's static MPLS
route and add each of its next-hops with cost 0, no interface, no area,
counting them in `staticNexthops`.  When the static route is missing only
an error is logged.  (The source's `.value()` on the prepend label cannot
be empty here: for KSP2+BGP, self is only kept in the node set when it
has a prepend label.) -/
def ksp2StaticPart (myNodeName : String)
    (nodePrefixes : List (String × PrefixEntry))
    (staticMplsRoutes : AList (fun _ : Int => List NextHop))
    (selfNodeContained : Bool) (dynNexthops : Finset NextHop) :
    Nat × Finset NextHop :=
  if selfNodeContained then
    match (lookupNP nodePrefixes myNodeName).bind
        (fun pe => pe.prependLabel) with
    | some label =>
      match staticMplsRoutes.lookup label with
      | some nhList =>
        (nhList.length,
          nhList.foldl
            (fun s nh =>
              insert
                { address := nh.address, metric := 0
                  useNonShortestRoute := true } s)
            dynNexthops)
      | none => (0, dynNexthops)
    | none => (0, dynNexthops)
  else (0, dynNexthops)

/-- `SpfSolver::SpfSolverImpl::selectKsp2` (Decision.cpp:1432-1575),
with the emplace into `unicastEntries` modelled as the returned optional
entry (`none` = the entry is dropped).  `getLoopbackVias` abstracts
`prefixState.getLoopbackVias` for the BGP tail. -/
def selectKsp2 (pfx : IpPrefix) (myNodeName : String)
    (bestPathCalResult : BestPathCalResult)
    (nodePrefixes : List (String × PrefixEntry)) (hasBgp : Bool)
    (kthPaths : String → String → Nat → List Path)
    (nodeLabelOf : String → Int)
    (staticMplsRoutes : AList (fun _ : Int => List NextHop))
    (getLoopbackVias : List String → Bool → Option Int → List NextHop)
    (bgpDryRun : Bool) : Option (IpPrefix × RibUnicastEntry) :=
  let selfNodeContained :=
    bestPathCalResult.nodes.any (fun n => n == myNodeName)
  let paths := ksp2AllPaths kthPaths myNodeName bestPathCalResult.nodes
  if paths.isEmpty then none
  else
    let isV4Prefix := pfx.addr.length == 4
    let withStatic := ksp2StaticPart myNodeName nodePrefixes
      staticMplsRoutes selfNodeContained
      (ksp2DynNexthops myNodeName nodeLabelOf nodePrefixes isV4Prefix
        paths)
    let staticNexthops := withStatic.1
    let nexthops := withStatic.2
    let minNextHop :=
      getMinNextHopThreshold bestPathCalResult nodePrefixes
    let dynamicNextHop : Int := (nexthops.card : Int) - staticNexthops
    if (match minNextHop with
        | some t => decide (t > dynamicNextHop)
        | none => false)
    then none
    else
      let base : RibUnicastEntry := { pfx := pfx, nexthops := nexthops }
      let entry :=
        if hasBgp then
          match getLoopbackVias [bestPathCalResult.bestNode] isV4Prefix
              bestPathCalResult.bestIgpMetric with
          | [bh] =>
            { base with
                bestNexthop := some bh
                bestPrefixEntry :=
                  lookupNP nodePrefixes bestPathCalResult.bestNode
                doNotInstall := bgpDryRun }
          | _ => base
        else base
      some (pfx, entry)

/-- The claim's threshold, following the spec's words: the maximum of the
`minNexthop` values over ALL advertisers of the prefix (not over the
retained best-path nodes). -/
def maxMinNexthopOfAdvertisers
    (nodePrefixes : List (String × PrefixEntry)) : Option Int :=
  nodePrefixes.foldl
    (fun acc kv =>
      match kv.2.minNexthop, acc with
      | some mn, none => some mn
      | some mn, some mx => some (max mn mx)
      | none, a => a)
    none

/-- The dynamic next-hop count of a `selectKsp2` run as the source
computes it (Decision.cpp:1554-1555): set size minus static count. -/
def ksp2DynamicCount (pfx : IpPrefix) (myNodeName : String)
    (bestPathCalResult : BestPathCalResult)
    (nodePrefixes : List (String × PrefixEntry))
    (kthPaths : String → String → Nat → List Path)
    (nodeLabelOf : String → Int)
    (staticMplsRoutes : AList (fun _ : Int => List NextHop)) : Int :=
  let withStatic := ksp2StaticPart myNodeName nodePrefixes
    staticMplsRoutes
    (bestPathCalResult.nodes.any (fun n => n == myNodeName))
    (ksp2DynNexthops myNodeName nodeLabelOf nodePrefixes
      (pfx.addr.length == 4)
      (ksp2AllPaths kthPaths myNodeName bestPathCalResult.nodes))
  (withStatic.2.card : Int) - withStatic.1

/-- Concrete scenario refuting the claim's "max over the advertisers":
`A` (overloaded, minNexthop 5) and `B` (no minNexthop) advertise the
prefix with SR_MPLS/KSP2; the drain filter retains only `B`, so the
code's threshold is empty although the advertisers' max is 5. -/
def peA : PrefixEntry :=
  { pfx := { addr := "anycastP", prefixLength := 64 }
    forwardingType := .SR_MPLS
    forwardingAlgorithm := .KSP2_ED_ECMP
    minNexthop := some 5 }

def peB : PrefixEntry :=
  { pfx := { addr := "anycastP", prefixLength := 64 }
    forwardingType := .SR_MPLS
    forwardingAlgorithm := .KSP2_ED_ECMP }

def npC5 : List (String × PrefixEntry) := [("A", peA), ("B", peB)]

def pfxC5 : IpPrefix := { addr := "anycastP", prefixLength := 64 }

def linkMEB : Link := { n1 := "ME", n2 := "B", metric1 := 10, metric2 := 10 }

def kthPathsC5 : String → String → Nat → List Path := fun _ dst k =>
  if dst = "B" && k == 1 then [[linkMEB]] else []

def bprC5 : BestPathCalResult :=
  getBestAnnouncingNodesNonBgp "ME" npC5 true (fun n => n == "A")

/-- C5 counterexample.  With advertisers `A` (overloaded, minNexthop 5)
and `B` (none), the best-path set is `{B}` and `selectKsp2` EMITS the
entry although the advertisers' maximum minNexthop (5) exceeds the
computed dynamic next-hop count (1) -- refuting "dropped exactly when the
maximum of the advertisers' minNexthop values exceeds the dynamic
next-hop count". -/
theorem selectKsp2_minNexthop_advertisers_counterexample :
    (selectKsp2 pfxC5 "ME" bprC5 npC5 false kthPathsC5 (fun _ => 0) ∅
        (fun _ _ _ => []) false).isSome = true ∧
    maxMinNexthopOfAdvertisers npC5 = some 5 ∧
    ksp2DynamicCount pfxC5 "ME" bprC5 npC5 kthPathsC5 (fun _ => 0) ∅
      = 1 := by
  refine ⟨?_, ?_, ?_⟩ <;> decide

/-- C5 (amended).  Provided the path collection is non-empty, a
`selectKsp2` entry is dropped exactly when the per-prefix threshold AS
THE CODE COMPUTES IT -- `getMinNextHopThreshold`, the maximum of the
`minNexthop` values over the RETAINED best-path nodes -- exceeds the
number of dynamic (non-static) next-hops; otherwise the entry is
emitted.  (When the path collection is empty the entry is also dropped,
before the threshold is consulted.) -/
theorem ite_eq_none_iff_cond {α : Type} (c : Bool) (x : α) :
    ((if c = true then none else some x) = none) ↔ c = true := by
  cases c <;> simp

theorem selectKsp2_minNexthop_gate (pfx : IpPrefix) (myNodeName : String)
    (bestPathCalResult : BestPathCalResult)
    (nodePrefixes : List (String × PrefixEntry)) (hasBgp : Bool)
    (kthPaths : String → String → Nat → List Path)
    (nodeLabelOf : String → Int)
    (staticMplsRoutes : AList (fun _ : Int => List NextHop))
    (getLoopbackVias : List String → Bool → Option Int → List NextHop)
    (bgpDryRun : Bool)
    (hpaths :
      (ksp2AllPaths kthPaths myNodeName bestPathCalResult.nodes).isEmpty
        = false) :
    (selectKsp2 pfx myNodeName bestPathCalResult nodePrefixes hasBgp
        kthPaths nodeLabelOf staticMplsRoutes getLoopbackVias bgpDryRun
      = none) ↔
      ∃ t, getMinNextHopThreshold bestPathCalResult nodePrefixes = some t
        ∧ t > ksp2DynamicCount pfx myNodeName bestPathCalResult
            nodePrefixes kthPaths nodeLabelOf staticMplsRoutes := by
  simp only [selectKsp2, ksp2DynamicCount, hpaths, Bool.false_eq_true,
    if_false]
  rcases hmin : getMinNextHopThreshold bestPathCalResult nodePrefixes
    with _ | t
  · simp
  · rw [ite_eq_none_iff_cond]
    simp

theorem selectKsp2_minNexthop_gate_witness :
    ¬ (selectKsp2 pfxC5 "ME" bprC5 npC5 false kthPathsC5 (fun _ => 0) ∅
        (fun _ _ _ => []) false = none) := by
  intro h
  rcases (selectKsp2_minNexthop_gate pfxC5 "ME" bprC5 npC5 false
      kthPathsC5 (fun _ => 0) ∅ (fun _ _ _ => []) false (by decide)).1 h
    with ⟨t, ht, _⟩
  have hnone : getMinNextHopThreshold bprC5 npC5 = none := by decide
  rw [hnone] at ht
  exact Option.noConfusion ht

/-! ## getNextHopsWithMetric and the LFA criterion (C4) -/

/-- The SPF view consumed by `getNextHopsWithMetric`: `spfHas a b` models
`linkState.getSpfResult(a).count(b) != 0`, `spfDist a b` the `.metric()`
of that entry (meaningful when present; the source's `.at` lookups assume
presence), `spfNextHops a b` its `.nextHops()`, and `metricAtoB a b`
`linkState.getMetricFromAToB(a, b).value()`. -/
structure SpfView where
  spfHas : String → String → Bool
  spfDist : String → String → Nat
  spfNextHops : String → String → List String
  metricAtoB : String → String → Nat

/-- `std::numeric_limits<LinkStateMetric>::max()` (uint64). -/
def maxMetric : Nat := 18446744073709551615

/-- `SpfSolver::SpfSolverImpl::getMinCostNodes`
(Decision.cpp:1577-1600). -/
def getMinCostNodes (v : SpfView) (myNodeName : String)
    (dstNodeNames : List String) : Nat × List String :=
  dstNodeNames.foldl
    (fun acc dstNode =>
      if v.spfHas myNodeName dstNode then
        let nodeDistance := v.spfDist myNodeName dstNode
        if acc.1 ≥ nodeDistance then
          if acc.1 > nodeDistance then (nodeDistance, [dstNode])
          else (acc.1, acc.2 ++ [dstNode])
        else acc
      else acc)
    (maxMetric, [])

/-- `nextHopNodes`: the `unordered_map<(nextHopNodeName, dst), Metric>`
embedded as a function to `Option`. -/
abbrev NhMap := String × String → Option Nat

def nhMapInsert (m : NhMap) (k : String × String) (d : Nat) : NhMap :=
  fun kk => if kk = k then some d else m kk

/-- The shortest-path credit loop (Decision.cpp:1630-1637):
`nextHopNodes[(nh, dstTag)] = shortestMetric - metricAtoB(me, nh)`.
(Nat subtraction: for SPF-consistent inputs the neighbor metric never
exceeds the shortest metric.) -/
def primaryNextHops (v : SpfView) (myNodeName : String)
    (perDestination : Bool) (minCostNodes : List String)
    (shortestMetric : Nat) : NhMap :=
  minCostNodes.foldl
    (fun m dstNode =>
      (v.spfNextHops myNodeName dstNode).foldl
        (fun m nhName =>
          nhMapInsert m (nhName, if perDestination then dstNode else "")
            (shortestMetric - v.metricAtoB myNodeName nhName))
        m)
    (fun _ => none)

/-- The per-destination body of the LFA loop (Decision.cpp:1651-1669):
skip unreachable destinations; the RFC 5286 criterion is
`distanceFromNeighbor < shortestMetric + neighborToHere`; on a hit,
record the distance, keeping the smaller one when the `(neighbor, dstTag)`
key already exists. -/
def lfaDstStep (v : SpfView) (perDestination : Bool)
    (shortestMetric : Nat) (neighborName : String) (neighborToHere : Nat)
    (m : NhMap) (dstNode : String) : NhMap :=
  if v.spfHas neighborName dstNode then
    let distanceFromNeighbor := v.spfDist neighborName dstNode
    if distanceFromNeighbor < shortestMetric + neighborToHere then
      let nextHopKey :=
        (neighborName, if perDestination then dstNode else "")
      match m nextHopKey with
      | none => nhMapInsert m nextHopKey distanceFromNeighbor
      | some w =>
        if w > distanceFromNeighbor then
          nhMapInsert m nextHopKey distanceFromNeighbor
        else m
    else m
  else m

/-- The per-link body of the LFA loop (Decision.cpp:1641-1670): skip
down links; `neighborToHere` is the neighbor's SPF distance back to this
node (`getSpfResult(neighborName).at(myNodeName).metric()`). -/
def lfaLinkStep (v : SpfView) (myNodeName : String)
    (perDestination : Bool) (dstNodeNames : List String)
    (shortestMetric : Nat) (m : NhMap) (link : Link) : NhMap :=
  if !link.isUp then m
  else
    dstNodeNames.foldl
      (lfaDstStep v perDestination shortestMetric
        (link.getOtherNodeName myNodeName)
        (v.spfDist (link.getOtherNodeName myNodeName) myNodeName))
      m

/-- `SpfSolver::SpfSolverImpl::getNextHopsWithMetric`
(Decision.cpp:1602-1674): shortest metric and (neighbor, dstTag) map;
the LFA extension runs when `computeLfaPaths_` is set. -/
def getNextHopsWithMetric (v : SpfView) (links : List Link)
    (computeLfaPaths : Bool) (myNodeName : String)
    (dstNodeNames : List String) (perDestination : Bool) :
    Nat × NhMap :=
  let mcn := getMinCostNodes v myNodeName dstNodeNames
  if mcn.2.isEmpty then (mcn.1, fun _ => none)
  else
    let m := primaryNextHops v myNodeName perDestination mcn.2 mcn.1
    (mcn.1,
      if computeLfaPaths then
        links.foldl
          (lfaLinkStep v myNodeName perDestination dstNodeNames mcn.1) m
      else m)

/-- Minimum of two optional metrics (`none` = no value yet). -/
def combineMin : Option Nat → Option Nat → Option Nat
  | none, b => b
  | some x, none => some x
  | some x, some y => some (min x y)

/-- Minimum of a list of metrics, `none` for the empty list. -/
def listMinOpt (l : List Nat) : Option Nat :=
  l.foldl (fun acc x => combineMin acc (some x)) none

/-- The LFA-qualifying distances for neighbor `N` and key tag `tag`:
the `spfDist N d` of every destination `d` mapping to `tag` that is
reachable from `N` and satisfies the RFC 5286 criterion with
back-distance `nth`. -/
def lfaQualDists (v : SpfView) (perDestination : Bool)
    (shortestMetric : Nat) (N : String) (nth : Nat) (tag : String)
    (dstNodeNames : List String) : List Nat :=
  (dstNodeNames.filter
    (fun d =>
      ((if perDestination then d else "") == tag)
        && v.spfHas N d
        && decide (v.spfDist N d < shortestMetric + nth))).map
    (v.spfDist N)

theorem combineMin_none_right (a : Option Nat) : combineMin a none = a := by
  cases a <;> rfl

theorem combineMin_assoc (a b c : Option Nat) :
    combineMin (combineMin a b) c = combineMin a (combineMin b c) := by
  cases a <;> cases b <;> cases c <;>
    simp [combineMin, Nat.min_assoc]

theorem combineMin_idem (a : Option Nat) : combineMin a a = a := by
  cases a <;> simp [combineMin]

theorem listMinOpt_seed (l : List Nat) (s : Option Nat) :
    l.foldl (fun acc x => combineMin acc (some x)) s =
      combineMin s (listMinOpt l) := by
  induction l generalizing s with
  | nil => exact (combineMin_none_right s).symm
  | cons x t ih =>
    show t.foldl _ (combineMin s (some x)) = _
    rw [ih (combineMin s (some x)), combineMin_assoc]
    have hx : listMinOpt (x :: t) = combineMin (some x) (listMinOpt t) := by
      show t.foldl _ (combineMin none (some x)) = _
      exact ih (combineMin none (some x))
    rw [hx]

theorem lfaDstStep_eval (v : SpfView) (pd : Bool) (sm : Nat)
    (N : String) (nth : Nat) (m : NhMap) (d : String)
    (k : String × String) :
    lfaDstStep v pd sm N nth m d k =
      if k = (N, if pd then d else "") ∧ v.spfHas N d = true ∧
          v.spfDist N d < sm + nth
      then combineMin (m k) (some (v.spfDist N d))
      else m k := by
  unfold lfaDstStep
  by_cases h1 : v.spfHas N d = true
  · rw [if_pos h1]
    by_cases h2 : v.spfDist N d < sm + nth
    · rw [if_pos h2]
      by_cases hk : k = (N, if pd then d else "")
      · subst hk
        rcases hm : m (N, if pd then d else "") with _ | w
        · simp [nhMapInsert, hm, combineMin, h1, h2]
        · by_cases hw : w > v.spfDist N d
          · simp only [hm]
            rw [if_pos hw]
            simp [nhMapInsert, combineMin, h1, h2,
              Nat.min_eq_right (Nat.le_of_lt hw)]
          · simp only [hm]
            rw [if_neg hw]
            have hle : w ≤ v.spfDist N d := Nat.le_of_not_lt hw
            simp [combineMin, h1, h2, Nat.min_eq_left hle, hm]
      · rcases hm : m (N, if pd then d else "") with _ | w
        · simp [nhMapInsert, hk, h1, h2]
        · by_cases hw : w > v.spfDist N d
          · simp only [hm]
            rw [if_pos hw]
            simp [nhMapInsert, hk, h1, h2]
          · simp only [hm]
            rw [if_neg hw]
            simp [hk, h1, h2]
    · rw [if_neg h2]
      simp [h2]
  · rw [if_neg h1]
    simp [h1]

theorem lfaDstFold_at (v : SpfView) (pd : Bool) (sm : Nat) (N : String)
    (nth : Nat) (dsts : List String) (m : NhMap) (tag : String) :
    (dsts.foldl (lfaDstStep v pd sm N nth) m) (N, tag) =
      combineMin (m (N, tag)) (listMinOpt (lfaQualDists v pd sm N nth
        tag dsts)) := by
  induction dsts generalizing m with
  | nil => exact (combineMin_none_right _).symm
  | cons d t ih =>
    show (t.foldl (lfaDstStep v pd sm N nth)
      (lfaDstStep v pd sm N nth m d)) (N, tag) = _
    rw [ih (lfaDstStep v pd sm N nth m d)]
    rw [lfaDstStep_eval v pd sm N nth m d (N, tag)]
    by_cases hcond : (N, tag) = (N, if pd then d else "") ∧
        v.spfHas N d = true ∧ v.spfDist N d < sm + nth
    · rw [if_pos hcond]
      have hfil : lfaQualDists v pd sm N nth tag (d :: t) =
          v.spfDist N d :: lfaQualDists v pd sm N nth tag t := by
        unfold lfaQualDists
        rw [List.filter_cons]
        have hb : (((if pd then d else "") == tag)
            && v.spfHas N d
            && decide (v.spfDist N d < sm + nth)) = true := by
          have htag : (if pd then d else "") = tag :=
            (congrArg Prod.snd hcond.1).symm
          simp [htag, hcond.2.1, hcond.2.2]
        rw [if_pos hb]
        rfl
      rw [hfil]
      have hx : listMinOpt (v.spfDist N d ::
          lfaQualDists v pd sm N nth tag t) =
          combineMin (some (v.spfDist N d))
            (listMinOpt (lfaQualDists v pd sm N nth tag t)) := by
        show (lfaQualDists v pd sm N nth tag t).foldl _
          (combineMin none (some (v.spfDist N d))) = _
        exact listMinOpt_seed _ _
      rw [hx, combineMin_assoc]
    · rw [if_neg hcond]
      have hfil : lfaQualDists v pd sm N nth tag (d :: t) =
          lfaQualDists v pd sm N nth tag t := by
        unfold lfaQualDists
        rw [List.filter_cons]
        have hb : ¬ ((((if pd then d else "") == tag)
            && v.spfHas N d
            && decide (v.spfDist N d < sm + nth)) = true) := by
          intro habs
          apply hcond
          rw [Bool.and_eq_true, Bool.and_eq_true] at habs
          refine ⟨?_, habs.1.2, of_decide_eq_true habs.2⟩
          have htag : (if pd then d else "") = tag :=
            of_decide_eq_true habs.1.1
          rw [htag]
        rw [if_neg hb]
      rw [hfil]

theorem lfaDstFold_ne (v : SpfView) (pd : Bool) (sm : Nat) (N : String)
    (nth : Nat) (dsts : List String) (m : NhMap) (k : String × String)
    (hk : k.1 ≠ N) :
    (dsts.foldl (lfaDstStep v pd sm N nth) m) k = m k := by
  induction dsts generalizing m with
  | nil => rfl
  | cons d t ih =>
    show (t.foldl (lfaDstStep v pd sm N nth)
      (lfaDstStep v pd sm N nth m d)) k = m k
    rw [ih (lfaDstStep v pd sm N nth m d)]
    rw [lfaDstStep_eval v pd sm N nth m d k]
    rw [if_neg]
    intro habs
    exact hk (by rw [habs.1])

theorem lfaLinksFold_at (v : SpfView) (myNodeName : String) (pd : Bool)
    (dsts : List String) (sm : Nat) (links : List Link) (m : NhMap)
    (N tag : String) :
    (links.foldl (lfaLinkStep v myNodeName pd dsts sm) m) (N, tag) =
      if links.any
          (fun l => l.isUp && (l.getOtherNodeName myNodeName == N))
      then combineMin (m (N, tag))
        (listMinOpt (lfaQualDists v pd sm N
          (v.spfDist N myNodeName) tag dsts))
      else m (N, tag) := by
  induction links generalizing m with
  | nil => rfl
  | cons link t ih =>
    show (t.foldl (lfaLinkStep v myNodeName pd dsts sm)
      (lfaLinkStep v myNodeName pd dsts sm m link)) (N, tag) = _
    rw [ih (lfaLinkStep v myNodeName pd dsts sm m link)]
    have hany : (link :: t).any
        (fun l => l.isUp && (l.getOtherNodeName myNodeName == N)) =
        ((link.isUp && (link.getOtherNodeName myNodeName == N)) ||
          t.any (fun l => l.isUp &&
            (l.getOtherNodeName myNodeName == N))) := by
      simp [List.any_cons]
    by_cases hc : (link.isUp &&
        (link.getOtherNodeName myNodeName == N)) = true
    · have hup : link.isUp = true := ((Bool.and_eq_true _ _).mp hc).1
      have hnb : link.getOtherNodeName myNodeName = N :=
        eq_of_beq ((Bool.and_eq_true _ _).mp hc).2
      have hstep : (lfaLinkStep v myNodeName pd dsts sm m link) (N, tag)
          = combineMin (m (N, tag))
            (listMinOpt (lfaQualDists v pd sm N
              (v.spfDist N myNodeName) tag dsts)) := by
        unfold lfaLinkStep
        rw [hup]
        simp only [Bool.not_true, Bool.false_eq_true, if_false]
        rw [hnb]
        exact lfaDstFold_at v pd sm N (v.spfDist N myNodeName) dsts m tag
      rw [hstep, hany, hc, Bool.true_or]
      rcases hanyt : t.any (fun l => l.isUp &&
          (l.getOtherNodeName myNodeName == N)) with _ | _
      · simp
      · simp only [if_true]
        rw [combineMin_assoc, combineMin_idem]
    · have hstep : (lfaLinkStep v myNodeName pd dsts sm m link) (N, tag)
          = m (N, tag) := by
        unfold lfaLinkStep
        rcases hup : link.isUp with _ | _
        · simp
        · simp only [Bool.not_true, Bool.false_eq_true, if_false]
          apply lfaDstFold_ne
          intro habs
          have habs' : N = link.getOtherNodeName myNodeName := habs
          apply hc
          rw [Bool.and_eq_true]
          exact ⟨hup, beq_iff_eq.2 habs'.symm⟩
      rw [hstep, hany]
      have hcf : (link.isUp &&
          (link.getOtherNodeName myNodeName == N)) = false :=
        Bool.eq_false_iff.2 hc
      rw [hcf, Bool.false_or]

/-- Asymmetric topology on which the claim's `metric(me, N)` bound and
the code's back-distance differ.  Graph: `S-N` direct link of metric 10,
`S-X` metric 2, `X-N` metric 2 (so `dist(N, S) = 4 < 10`), `S-D` metric
5, `N-D` metric 12 (so `dist(N, D) = min(12, 2+2+5) = 9`).  All SPF
values below are those of this graph; `metricAtoB S N = 10` is the
direct `S-N` link metric. -/
def linkSN : Link := { n1 := "S", n2 := "N", metric1 := 10, metric2 := 10 }

def linkSX : Link := { n1 := "S", n2 := "X", metric1 := 2, metric2 := 2 }

def linkSD : Link := { n1 := "S", n2 := "D", metric1 := 5, metric2 := 5 }

def spfDemo : SpfView :=
  { spfHas := fun a b =>
      (a == "S" && b == "D") || (a == "N" && b == "D")
        || (a == "N" && b == "S") || (a == "X" && b == "D")
        || (a == "X" && b == "S") || (a == "D" && b == "D")
        || (a == "D" && b == "S")
    spfDist := fun a b =>
      if a == "S" && b == "D" then 5
      else if a == "N" && b == "D" then 9
      else if a == "N" && b == "S" then 4
      else if a == "X" && b == "D" then 7
      else if a == "X" && b == "S" then 2
      else if a == "D" && b == "S" then 5
      else 0
    spfNextHops := fun a b =>
      if a == "S" && b == "D" then ["D"] else []
    metricAtoB := fun a b =>
      if a == "S" && b == "N" then 10
      else if a == "S" && b == "X" then 2
      else if a == "S" && b == "D" then 5
      else 0 }

def linksDemo : List Link := [linkSN, linkSX, linkSD]

/-- C4 counterexample.  On the asymmetric topology of `spfDemo`, the
claim's RFC-5286 criterion with `metric(me, N)` (the direct `S-N` link
metric, 10) admits neighbor `N` for destination `D`:
`dist(N, D) = 9 < shortestMetric(5) + metric(S, N)(10)` -- and `N` is
reachable over an up link and is not a shortest-path next-hop -- yet the
code records nothing under `(N, "")`, because its bound is the
neighbor's SPF distance back to `S` (Decision.cpp:1649-1650):
`9 < 5 + dist(N, S)(4)` fails.  The claim's "exactly when" is false of
the code. -/
theorem getNextHopsWithMetric_lfa_claim_counterexample :
    (spfDemo.spfDist "N" "D" <
      (getNextHopsWithMetric spfDemo linksDemo true "S" ["D"] false).1
        + spfDemo.metricAtoB "S" "N") ∧
    (linksDemo.any
      (fun l => l.isUp && (l.getOtherNodeName "S" == "N"))) = true ∧
    primaryNextHops spfDemo "S" false
      (getMinCostNodes spfDemo "S" ["D"]).2
      (getMinCostNodes spfDemo "S" ["D"]).1 ("N", "") = none ∧
    (getNextHopsWithMetric spfDemo linksDemo true "S" ["D"] false).2
      ("N", "") = none := by
  refine ⟨?_, ?_, ?_, ?_⟩ <;> decide

/-- C4 (amended).  **LFA recording in getNextHopsWithMetric**
(Decision.cpp:1639-1671).  With LFA computation enabled, for a key
`(N, dstTag)` that the shortest-path loop did not populate, the map
records `(N, dstTag)` exactly when some up link reaches neighbor `N` and
some destination `D` mapping to `dstTag` satisfies
`dist(N, D) < shortestMetric + dist(N, me)` -- where `dist(N, me)` is
the neighbor's SPF distance back to the computing node (RFC 5286's
`Distance_opt(N, S)`, read from the neighbor's SPF result at
Decision.cpp:1649-1650), not the direct-link `metric(me, N)` -- and the
recorded value is the SMALLEST such `dist(N, D)`. -/
theorem getNextHopsWithMetric_lfa_backDistance (v : SpfView)
    (links : List Link) (myNodeName : String)
    (dstNodeNames : List String) (perDestination : Bool) (N tag : String)
    (hmcn : (getMinCostNodes v myNodeName dstNodeNames).2.isEmpty
      = false)
    (hprim : primaryNextHops v myNodeName perDestination
        (getMinCostNodes v myNodeName dstNodeNames).2
        (getMinCostNodes v myNodeName dstNodeNames).1 (N, tag) = none) :
    (getNextHopsWithMetric v links true myNodeName dstNodeNames
        perDestination).2 (N, tag) =
      (if links.any
          (fun l => l.isUp && (l.getOtherNodeName myNodeName == N))
       then listMinOpt (lfaQualDists v perDestination
         (getNextHopsWithMetric v links true myNodeName dstNodeNames
           perDestination).1
         N (v.spfDist N myNodeName) tag dstNodeNames)
       else none) := by
  have hfst : (getNextHopsWithMetric v links true myNodeName dstNodeNames
      perDestination).1 = (getMinCostNodes v myNodeName dstNodeNames).1
      := by
    simp [getNextHopsWithMetric, hmcn]
  have hsnd : (getNextHopsWithMetric v links true myNodeName dstNodeNames
      perDestination).2 =
      links.foldl
        (lfaLinkStep v myNodeName perDestination dstNodeNames
          (getMinCostNodes v myNodeName dstNodeNames).1)
        (primaryNextHops v myNodeName perDestination
          (getMinCostNodes v myNodeName dstNodeNames).2
          (getMinCostNodes v myNodeName dstNodeNames).1) := by
    simp [getNextHopsWithMetric, hmcn]
  rw [hsnd, hfst]
  rw [lfaLinksFold_at, hprim]
  rcases links.any
      (fun l => l.isUp && (l.getOtherNodeName myNodeName == N)) with _ | _
  · rfl
  · rfl

/-- On `spfDemo`, neighbor `X` does qualify under the code's bound for no
destination (`dist(X, D) = 7 < 5 + 2` fails) and `N` fails as above, so
the amended characterization puts nothing under `(N, "")`; re-running it
at a second view where `dist(N, D) = 8 < 5 + 4` holds shows the recorded
minimum. -/
def spfDemoHit : SpfView :=
  { spfDemo with
      spfDist := fun a b =>
        if a == "N" && b == "D" then 8 else spfDemo.spfDist a b }

theorem getNextHopsWithMetric_lfa_backDistance_witness :
    (getNextHopsWithMetric spfDemoHit linksDemo true "S" ["D"]
        false).2 ("N", "") = some 8 :=
  (getNextHopsWithMetric_lfa_backDistance spfDemoHit linksDemo "S" ["D"]
      false "N" "" (by decide) (by decide)).trans (by decide)

/-! ## processPendingUpdates and the empty-recomputation case (C10) -/

/-- Decision's state as read by `processPendingUpdates`:
`coldStartScheduled` is `coldStartTimer_->isScheduled()`,
`pendingNeedsUpdate` is `pendingUpdates_.needsRouteUpdate()`,
`solverStatic` the SpfSolver static-route state, `areaResults` the
per-area solver outputs consumed by `Decision::buildRouteDb`, `routeDb`
the `routeDb_` cache of the last published DB, and `ribPolicyActive`
whether an unexpired RibPolicy is installed. -/
structure DecisionState where
  coldStartScheduled : Bool := false
  pendingNeedsUpdate : Bool := false
  solverStatic : SpfSolverStaticState := {}
  areaResults : List (Option DecisionRouteDb) := []
  routeDb : DecisionRouteDb := {}
  ribPolicyActive : Bool := false

/-- `Decision::sendRouteUpdate` (Decision.cpp:2384-2427): apply the
active RibPolicy (abstracted as `policyApply`), diff against the cached
`routeDb_`, cache the new DB, and return the delta that is pushed to the
FIB queue. -/
def sendRouteUpdate (s : DecisionState)
    (policyApply : DecisionRouteDb → DecisionRouteDb)
    (db : DecisionRouteDb) : DecisionState × RouteDatabaseDelta :=
  let db2 := if s.ribPolicyActive then policyApply db else db
  ({ s with routeDb := db2 }, getRouteDelta db2 s.routeDb)

/-- `Decision::processPendingUpdates` (Decision.cpp:2249-2299): no-op
while the cold-start timer is scheduled; drain the static-route deltas
first (pushing the squashed delta, if any, to the FIB queue); rebuild the
route DB when `needsRouteUpdate` or statics changed; publish via
`sendRouteUpdate` only when the build produced a value, else only log a
warning.  The second and third components of the result are the static
delta and the recomputation delta pushed to the FIB queue. -/
def processPendingUpdates (s : DecisionState)
    (policyApply : DecisionRouteDb → DecisionRouteDb) :
    DecisionState × Option StaticRouteDelta × Option RouteDatabaseDelta :=
  if s.coldStartScheduled then (s, none, none)
  else
    let staticUpdated := !s.solverStatic.staticRoutesUpdates.isEmpty
    let statRes :=
      if staticUpdated then processStaticRouteUpdates s.solverStatic
      else (s.solverStatic, none)
    let s1 := { s with solverStatic := statRes.1 }
    match
      (if s.pendingNeedsUpdate || staticUpdated then
        decisionBuildRouteDb s.areaResults
      else none) with
    | some db =>
      let r := sendRouteUpdate s1 policyApply db
      (r.1, statRes.2, some r.2)
    | none => (s1, statRes.2, none)

/-- C10.  **Empty merged DB yields no value and publishes no delta.**
`Decision::buildRouteDb` returns `none` exactly when the merged per-area
database contains neither unicast nor MPLS entries; consequently, when a
recomputation's result is entirely empty, `processPendingUpdates`
publishes no recomputation delta and the previously published
`routeDb_` cache is left unchanged (so previously published routes are
not deleted).  A squashed static-route delta may still be pushed
separately. -/
theorem decisionBuildRouteDb_none_iff_empty
    (areaResults : List (Option DecisionRouteDb)) (s : DecisionState)
    (policyApply : DecisionRouteDb → DecisionRouteDb) :
    (decisionBuildRouteDb areaResults = none ↔
      ((mergeAreaResults areaResults).unicastEntries.entries.isEmpty
          = true ∧
        (mergeAreaResults areaResults).mplsEntries.entries.isEmpty
          = true)) ∧
    (s.coldStartScheduled = false →
      decisionBuildRouteDb s.areaResults = none →
      (processPendingUpdates s policyApply).2.2 = none ∧
        (processPendingUpdates s policyApply).1.routeDb = s.routeDb) := by
  constructor
  · unfold decisionBuildRouteDb
    by_cases h1 :
        (mergeAreaResults areaResults).unicastEntries.entries.isEmpty
          = true
    · by_cases h2 :
          (mergeAreaResults areaResults).mplsEntries.entries.isEmpty
            = true
      · simp [h1, h2]
      · simp [h1, h2]
    · simp [h1]
  · intro hcold hbuild
    unfold processPendingUpdates
    rw [hcold]
    simp only [Bool.false_eq_true, if_false]
    rw [hbuild, ite_self]
    exact ⟨rfl, rfl⟩

theorem decisionBuildRouteDb_none_iff_empty_witness :
    (processPendingUpdates {} id).2.2 = none ∧
      (processPendingUpdates {} id).1.routeDb =
        ({} : DecisionState).routeDb :=
  (decisionBuildRouteDb_none_iff_empty [] {} id).2 rfl rfl

end Openr
